import Mathlib

/-!
# Verification of the pynaneye frame synchronization queue

A shallow embedding of `src/pynaneye/frame_queue.py` (`StereoFrameQueue`):
the bounded per-channel buffers (Python `deque(maxlen=...)`), the
timestamp-based pair matcher `_find_and_remove_best_pair`, the routing
`put`, and the timeout loop of `get`, together with proofs of the
specified properties.

Timestamps are modelled as integers (the spec fixes them as microsecond
values); real time in the `get` loop is modelled as rational clock
readings.  Python's `deque.remove` removes the first element comparing
equal, which `List.erase` mirrors under decidable equality of frames.
-/

/-- The frame record (`NanEyeFrameDict` in `frame_queue.py`): payload bytes,
dimensions, a microsecond timestamp, and the sensor/channel discriminator. -/
structure NanEyeFrameDict where
  image_bytes : List Nat
  width : Nat
  height : Nat
  timestamp : Int
  sensor_id : Int
deriving DecidableEq, Repr

/-- Appending to a Python `deque(maxlen)` keeps only the newest `maxlen`
elements: the new element is appended and, past capacity, the oldest
elements are discarded from the front. -/
def dequeAppend (maxlen : Nat) (xs : List NanEyeFrameDict) (x : NanEyeFrameDict) :
    List NanEyeFrameDict :=
  let ys := xs ++ [x]
  ys.drop (ys.length - maxlen)

/-- State of a `StereoFrameQueue`: the tolerance, the capacity of each
deque, and the two channel buffers in insertion order (oldest first). -/
structure StereoFrameQueue where
  timestamp_tolerance_us : Int
  buffer_size : Nat
  left_frames : List NanEyeFrameDict
  right_frames : List NanEyeFrameDict
deriving DecidableEq, Repr

/-- Default of the `timestamp_tolerance_us` argument of `__init__`. -/
def defaultToleranceUs : Int := 20000

/-- Default of the `buffer_size` argument of `__init__`. -/
def defaultBufferSize : Int := 3

/-- `StereoFrameQueue.__init__`: raises `ValueError` when
`buffer_size < 1`, otherwise creates two empty deques of that capacity. -/
def StereoFrameQueue.init (timestamp_tolerance_us : Int := defaultToleranceUs)
    (buffer_size : Int := defaultBufferSize) : Except String StereoFrameQueue :=
  if buffer_size < 1 then
    .error "buffer_size must be at least 1"
  else
    .ok { timestamp_tolerance_us := timestamp_tolerance_us
          buffer_size := buffer_size.toNat
          left_frames := []
          right_frames := [] }

/-- Result of one `put` call: the new queue state, whether
`_new_frame_event.set()` was executed (a waiting consumer is woken), and
whether the unknown-`sensor_id` warning was printed. -/
structure PutResult where
  state : StereoFrameQueue
  eventSet : Bool
  warned : Bool
deriving DecidableEq, Repr

/-- `StereoFrameQueue.put`: routes the frame to the left (`sensor_id = 0`)
or right (`sensor_id = 1`) deque and sets the new-frame event; any other
discriminator prints a warning, discards the frame, and returns without
setting the event.  The method never raises. -/
def StereoFrameQueue.put (q : StereoFrameQueue) (frame : NanEyeFrameDict) : PutResult :=
  if frame.sensor_id = 0 then
    ⟨{ q with left_frames := dequeAppend q.buffer_size q.left_frames frame }, true, false⟩
  else if frame.sensor_id = 1 then
    ⟨{ q with right_frames := dequeAppend q.buffer_size q.right_frames frame }, true, false⟩
  else
    ⟨q, false, true⟩

/-- The scan order of the matcher's nested loops: every left frame (outer
loop, insertion order) against every right frame (inner loop, insertion
order). -/
def scanPairs (lefts rights : List NanEyeFrameDict) :
    List (NanEyeFrameDict × NanEyeFrameDict) :=
  lefts.flatMap (fun l => rights.map (fun r => (l, r)))

/-- One step of the matcher's running minimum: starting from
`min_time_diff = inf` (modelled as `none`), a candidate replaces the
current best only on strictly smaller absolute timestamp difference. -/
def bestStep (best : Option (Int × NanEyeFrameDict × NanEyeFrameDict))
    (p : NanEyeFrameDict × NanEyeFrameDict) :
    Option (Int × NanEyeFrameDict × NanEyeFrameDict) :=
  let d := |p.1.timestamp - p.2.timestamp|
  match best with
  | none => some (d, p.1, p.2)
  | some (m, bl, br) => if d < m then some (d, p.1, p.2) else some (m, bl, br)

/-- The scan of `_find_and_remove_best_pair` before the tolerance check:
the minimal-difference pair under the strict-less-than update rule,
together with its difference, or `none` when either buffer is empty. -/
def findBest (lefts rights : List NanEyeFrameDict) :
    Option (Int × NanEyeFrameDict × NanEyeFrameDict) :=
  (scanPairs lefts rights).foldl bestStep none

/-- `StereoFrameQueue._find_and_remove_best_pair`: scans all left/right
combinations for the minimal timestamp difference; if a best pair exists
and its difference is within tolerance, both frames are removed from
their deques (first occurrence, no error when absent — `deque.remove`
inside `try/except ValueError`) and returned; otherwise `(None, None)`. -/
def StereoFrameQueue.findAndRemoveBestPair (q : StereoFrameQueue) :
    (Option NanEyeFrameDict × Option NanEyeFrameDict) × StereoFrameQueue :=
  match findBest q.left_frames q.right_frames with
  | some (m, bl, br) =>
    if m ≤ q.timestamp_tolerance_us then
      ((some bl, some br),
        { q with left_frames := q.left_frames.erase bl
                 right_frames := q.right_frames.erase br })
    else ((none, none), q)
  | none => ((none, none), q)

/-- One wake/inspect cycle of the `get` loop: the monotonic-clock reading
when the lock is taken after `wait` returns, and the queue state seen
under the lock (concurrent `put` calls may have changed the buffers). -/
structure Inspection where
  now : ℚ
  state : StereoFrameQueue

/-- How a `get` call stands after finitely many observed wake/inspect
cycles: a delivered pair (with the state after removal), the
`queue.Empty` raise on timeout expiry, or still looping with the current
re-armed timeout value. -/
inductive GetOutcome where
  | delivered (left right : NanEyeFrameDict) (after : StereoFrameQueue)
  | emptyRaised
  | stillWaiting (timeout : Option ℚ)
deriving DecidableEq

/-- The loop body of `StereoFrameQueue.get`, driven by the finite list of
wake/inspect cycles the environment produces: at each cycle the matcher
runs on the state seen under the lock; on success the pair is returned;
otherwise, for a finite timeout, `remaining = timeout - (now - start_time)`
is computed with the previously re-armed `timeout`, `queue.Empty` is
raised when it is non-positive, and the loop re-arms with `remaining`;
with `timeout = None` the loop just continues. -/
def getLoop (timeout : Option ℚ) (start_time : ℚ) :
    List Inspection → GetOutcome
  | [] => .stillWaiting timeout
  | insp :: rest =>
    let res := insp.state.findAndRemoveBestPair
    match res.1 with
    | (some l, some r) => .delivered l r res.2
    | _ =>
      match timeout with
      | none => getLoop none start_time rest
      | some T =>
        let remaining := T - (insp.now - start_time)
        if remaining ≤ 0 then .emptyRaised
        else getLoop (some remaining) start_time rest

/-- Modelled from the spec: the single-channel queue mode.  The code of
this mode is not under `src/` (only the stereo queue is); per the spec it
is one bounded channel buffer used as a plain FIFO with default capacity
1; `submit` appends with oldest-first eviction; `retrieve` returns the
oldest buffered frame once at least one exists. -/
structure SingleChannelQueue where
  capacity : Nat
  buffer : List NanEyeFrameDict
deriving DecidableEq, Repr

/-- Modelled from the spec: default capacity for single-channel mode. -/
def defaultSingleCapacity : Int := 1

/-- Modelled from the spec: construction of the single-channel queue;
capacity below 1 is a construction-time input error. -/
def SingleChannelQueue.init (capacity : Int := defaultSingleCapacity) :
    Except String SingleChannelQueue :=
  if capacity < 1 then .error "capacity must be at least 1"
  else .ok { capacity := capacity.toNat, buffer := [] }

/-- Modelled from the spec: `submit` in single-channel mode appends to the
one buffer, evicting the oldest element when at capacity. -/
def SingleChannelQueue.submit (q : SingleChannelQueue) (f : NanEyeFrameDict) :
    SingleChannelQueue :=
  { q with buffer := dequeAppend q.capacity q.buffer f }

/-- Modelled from the spec: `retrieve` in single-channel mode returns the
oldest buffered frame once at least one exists, `none` on an empty buffer. -/
def SingleChannelQueue.retrieve (q : SingleChannelQueue) :
    Option NanEyeFrameDict × SingleChannelQueue :=
  match q.buffer with
  | [] => (none, q)
  | f :: rest => (some f, { q with buffer := rest })

/-- A sequence of `submit` calls in order. -/
def SingleChannelQueue.submitAll (q : SingleChannelQueue)
    (fs : List NanEyeFrameDict) : SingleChannelQueue :=
  fs.foldl SingleChannelQueue.submit q

/-- The results of `n` consecutive `retrieve` calls, in order. -/
def SingleChannelQueue.drain (q : SingleChannelQueue) :
    Nat → List (Option NanEyeFrameDict)
  | 0 => []
  | n + 1 =>
    let res := q.retrieve
    res.1 :: res.2.drain n

/-- Absolute timestamp difference of a candidate pair, the quantity
`abs(l_frame.timestamp - r_frame.timestamp)` minimized by the matcher. -/
def tdiff (p : NanEyeFrameDict × NanEyeFrameDict) : Int :=
  |p.1.timestamp - p.2.timestamp|

/-- The routing invariant: every buffered left frame carries discriminator
0 and every buffered right frame carries discriminator 1. -/
def channelInvariant (q : StereoFrameQueue) : Prop :=
  (∀ f ∈ q.left_frames, f.sensor_id = 0) ∧ (∀ f ∈ q.right_frames, f.sensor_id = 1)

/-- A minimal concrete frame used to instantiate the theorems. -/
def wFrame (ts sid : Int) : NanEyeFrameDict :=
  { image_bytes := [], width := 0, height := 0, timestamp := ts, sensor_id := sid }

/-- Concrete stereo state from the spec's best-pair test: left timestamps
100, 200, 300 and right timestamp 150, tolerance 20000 µs. -/
def exampleStereoQueue : StereoFrameQueue :=
  { timestamp_tolerance_us := 20000, buffer_size := 3,
    left_frames := [wFrame 100 0, wFrame 200 0, wFrame 300 0],
    right_frames := [wFrame 150 1] }

/-- Concrete stereo state from the spec's tolerance-exclusion test: left
timestamp 100, right timestamp 100000, tolerance 20000 µs. -/
def farStereoQueue : StereoFrameQueue :=
  { timestamp_tolerance_us := 20000, buffer_size := 3,
    left_frames := [wFrame 100 0], right_frames := [wFrame 100000 1] }

/-- A wake/inspect cycle at clock reading `t` seeing an empty queue. -/
def idleInspection (t : ℚ) : Inspection :=
  { now := t,
    state := { timestamp_tolerance_us := 20000, buffer_size := 3,
               left_frames := [], right_frames := [] } }

/-! ## Lemmas about the matcher's running-minimum scan -/

lemma bestStep_none (p : NanEyeFrameDict × NanEyeFrameDict) :
    bestStep none p = some (tdiff p, p.1, p.2) := rfl

lemma bestStep_some (m : Int) (bl br : NanEyeFrameDict)
    (p : NanEyeFrameDict × NanEyeFrameDict) :
    bestStep (some (m, bl, br)) p =
      if tdiff p < m then some (tdiff p, p.1, p.2) else some (m, bl, br) := rfl

/-- Behaviour of the strict-less-than fold from a nonempty accumulator:
either the accumulator survives and bounds every scanned difference from
below, or the result is the first scanned pair achieving a strictly
smaller difference, with everything before it strictly larger and
everything after it no smaller. -/
lemma foldl_bestStep_spec (ps : List (NanEyeFrameDict × NanEyeFrameDict)) :
    ∀ m₀ : Int, ∀ bl₀ br₀ : NanEyeFrameDict, ∀ m : Int, ∀ bl br : NanEyeFrameDict,
      ps.foldl bestStep (some (m₀, bl₀, br₀)) = some (m, bl, br) →
      (m = m₀ ∧ bl = bl₀ ∧ br = br₀ ∧ ∀ p ∈ ps, m ≤ tdiff p) ∨
      (m < m₀ ∧ m = tdiff (bl, br) ∧ ∃ pre post, ps = pre ++ (bl, br) :: post ∧
        (∀ p ∈ pre, m < tdiff p) ∧ (∀ p ∈ post, m ≤ tdiff p)) := by
  induction ps with
  | nil =>
    intro m₀ bl₀ br₀ m bl br h
    simp only [List.foldl_nil, Option.some.injEq, Prod.mk.injEq] at h
    exact Or.inl ⟨h.1.symm, h.2.1.symm, h.2.2.symm, by simp⟩
  | cons p rest ih =>
    intro m₀ bl₀ br₀ m bl br h
    rw [List.foldl_cons, bestStep_some] at h
    by_cases hd : tdiff p < m₀
    · rw [if_pos hd] at h
      rcases ih (tdiff p) p.1 p.2 m bl br h with
        ⟨h1, h2, h3, h4⟩ | ⟨h1, h2, pre, post, h3, h4, h5⟩
      · right
        have hp : (bl, br) = p := by rw [h2, h3]
        refine ⟨by rw [h1]; exact hd, by rw [h1, hp], [], rest, by rw [hp]; rfl, by simp, ?_⟩
        intro x hx
        exact h4 x hx
      · right
        refine ⟨h1.trans hd, h2, p :: pre, post, by rw [h3]; rfl, ?_, h5⟩
        intro x hx
        rcases List.mem_cons.mp hx with hx | hx
        · rw [hx]; exact h1
        · exact h4 x hx
    · rw [if_neg hd] at h
      rcases ih m₀ bl₀ br₀ m bl br h with
        ⟨h1, h2, h3, h4⟩ | ⟨h1, h2, pre, post, h3, h4, h5⟩
      · left
        refine ⟨h1, h2, h3, ?_⟩
        intro x hx
        rcases List.mem_cons.mp hx with hx | hx
        · rw [hx, h1]; exact not_lt.mp hd
        · exact h4 x hx
      · right
        refine ⟨h1, h2, p :: pre, post, by rw [h3]; rfl, ?_, h5⟩
        intro x hx
        rcases List.mem_cons.mp hx with hx | hx
        · rw [hx]; exact lt_of_lt_of_le h1 (not_lt.mp hd)
        · exact h4 x hx

/-- The full scan starting from `min_time_diff = inf`: on success the
result is the first pair in scan order achieving the minimal absolute
timestamp difference. -/
lemma findBest_spec (lefts rights : List NanEyeFrameDict) (m : Int)
    (bl br : NanEyeFrameDict) (h : findBest lefts rights = some (m, bl, br)) :
    m = tdiff (bl, br) ∧ ∃ pre post,
      scanPairs lefts rights = pre ++ (bl, br) :: post ∧
      (∀ p ∈ pre, m < tdiff p) ∧ (∀ p ∈ post, m ≤ tdiff p) := by
  unfold findBest at h
  cases hs : scanPairs lefts rights with
  | nil => rw [hs] at h; simp at h
  | cons p rest =>
    rw [hs, List.foldl_cons, bestStep_none] at h
    rcases foldl_bestStep_spec rest (tdiff p) p.1 p.2 m bl br h with
      ⟨h1, h2, h3, h4⟩ | ⟨h1, h2, pre, post, h3, h4, h5⟩
    · have hp : (bl, br) = p := by rw [h2, h3]
      exact ⟨by rw [h1, hp], [], rest, by rw [hp]; rfl, by simp, h4⟩
    · refine ⟨h2, p :: pre, post, by rw [h3]; rfl, ?_, h5⟩
      intro x hx
      rcases List.mem_cons.mp hx with hx | hx
      · rw [hx]; exact h1
      · exact h4 x hx

lemma mem_scanPairs (lefts rights : List NanEyeFrameDict)
    (l r : NanEyeFrameDict) :
    (l, r) ∈ scanPairs lefts rights ↔ l ∈ lefts ∧ r ∈ rights := by
  simp only [scanPairs, List.mem_flatMap, List.mem_map, Prod.mk.injEq]
  constructor
  · rintro ⟨a, ha, b, hb, rfl, rfl⟩
    exact ⟨ha, hb⟩
  · rintro ⟨hl, hr⟩
    exact ⟨l, hl, r, hr, rfl, rfl⟩

/-- Success of the scan gives membership, the value of the minimum, and
global minimality over all cross-channel combinations. -/
lemma findBest_min (lefts rights : List NanEyeFrameDict) (m : Int)
    (bl br : NanEyeFrameDict) (h : findBest lefts rights = some (m, bl, br)) :
    bl ∈ lefts ∧ br ∈ rights ∧ m = |bl.timestamp - br.timestamp| ∧
      ∀ l ∈ lefts, ∀ r ∈ rights, m ≤ |l.timestamp - r.timestamp| := by
  obtain ⟨hm, pre, post, hsplit, hpre, hpost⟩ := findBest_spec lefts rights m bl br h
  have hmem : (bl, br) ∈ scanPairs lefts rights := by
    rw [hsplit]
    exact List.mem_append.mpr (Or.inr (List.mem_cons_self _ _))
  obtain ⟨hbl, hbr⟩ := (mem_scanPairs lefts rights bl br).mp hmem
  refine ⟨hbl, hbr, hm, ?_⟩
  intro l hl r hr
  have hlr : (l, r) ∈ scanPairs lefts rights := (mem_scanPairs lefts rights l r).mpr ⟨hl, hr⟩
  rw [hsplit] at hlr
  rcases List.mem_append.mp hlr with hx | hx
  · exact (hpre _ hx).le
  · rcases List.mem_cons.mp hx with hx | hx
    · rw [Prod.mk.injEq] at hx
      rw [hx.1, hx.2]
      exact le_of_eq hm
    · exact hpost _ hx

/-! ## Lemmas about the bounded deque -/

lemma dequeAppend_length_le (cap : Nat) (xs : List NanEyeFrameDict)
    (x : NanEyeFrameDict) : (dequeAppend cap xs x).length ≤ cap ∨
      (dequeAppend cap xs x) = xs ++ [x] := by
  simp only [dequeAppend]
  by_cases h : xs.length + 1 ≤ cap
  · right
    have h0 : (xs ++ [x]).length - cap = 0 := by simp; omega
    rw [h0, List.drop_zero]
  · left
    rw [List.length_drop]
    simp only [List.length_append, List.length_cons, List.length_nil]
    omega

lemma dequeAppend_length_le_of_le (cap : Nat) (xs : List NanEyeFrameDict)
    (x : NanEyeFrameDict) (h : xs.length ≤ cap) :
    (dequeAppend cap xs x).length ≤ cap := by
  rcases dequeAppend_length_le cap xs x with h1 | h1
  · exact h1
  · rw [h1]
    simp only [List.length_append, List.length_cons, List.length_nil]
    unfold dequeAppend at h1
    by_cases hc : xs.length + 1 ≤ cap
    · omega
    · exfalso
      have := congrArg List.length h1
      rw [List.length_drop] at this
      simp only [List.length_append, List.length_cons, List.length_nil] at this
      omega

lemma dequeAppend_of_lt (cap : Nat) (xs : List NanEyeFrameDict)
    (x : NanEyeFrameDict) (h : xs.length < cap) :
    dequeAppend cap xs x = xs ++ [x] := by
  simp only [dequeAppend]
  have h0 : (xs ++ [x]).length - cap = 0 := by simp; omega
  rw [h0, List.drop_zero]

lemma dequeAppend_at_cap (cap : Nat) (xs : List NanEyeFrameDict)
    (x : NanEyeFrameDict) (hcap : 1 ≤ cap) (h : xs.length = cap) :
    dequeAppend cap xs x = xs.tail ++ [x] := by
  simp only [dequeAppend]
  have h1 : (xs ++ [x]).length - cap = 1 := by simp; omega
  rw [h1, List.drop_append_of_le_length (by omega), List.drop_one]

/-- Folding the bounded append over a whole submission sequence keeps
exactly the newest `cap` elements of the concatenated history. -/
lemma foldl_dequeAppend (cap : Nat) (subs : List NanEyeFrameDict) :
    ∀ xs : List NanEyeFrameDict, xs.length ≤ cap →
      subs.foldl (dequeAppend cap) xs = (xs ++ subs).drop ((xs ++ subs).length - cap) := by
  induction subs with
  | nil =>
    intro xs hxs
    simp only [List.foldl_nil, List.append_nil]
    rw [Nat.sub_eq_zero_of_le hxs, List.drop_zero]
  | cons s rest ih =>
    intro xs hxs
    rw [List.foldl_cons,
      ih (dequeAppend cap xs s) (dequeAppend_length_le_of_le cap xs s hxs)]
    have hys : xs ++ s :: rest = (xs ++ [s]) ++ rest := by simp
    rw [hys]
    have hk : (xs ++ [s]).length - cap ≤ (xs ++ [s]).length := Nat.sub_le _ _
    rw [show dequeAppend cap xs s = (xs ++ [s]).drop ((xs ++ [s]).length - cap) from rfl,
      ← List.drop_append_of_le_length hk, List.drop_drop]
    congr 1
    rw [List.length_append, List.length_append, List.length_drop]
    simp only [List.length_append, List.length_cons, List.length_nil]
    omega

/-! ## Lemmas about the get loop -/

/-- The matcher returns either no pair at all or a full pair: the code can
never hand back a half pair. -/
lemma findAndRemoveBestPair_shape (q : StereoFrameQueue) :
    (q.findAndRemoveBestPair).1 = (none, none) ∨
      ∃ l r, (q.findAndRemoveBestPair).1 = (some l, some r) := by
  rcases h : findBest q.left_frames q.right_frames with _ | ⟨⟨m, bl, br⟩⟩
  · left
    simp [StereoFrameQueue.findAndRemoveBestPair, h]
  · by_cases ht : m ≤ q.timestamp_tolerance_us
    · right
      exact ⟨bl, br, by simp [StereoFrameQueue.findAndRemoveBestPair, h, ht]⟩
    · left
      simp [StereoFrameQueue.findAndRemoveBestPair, h, ht]

lemma pair_of_fst {q : StereoFrameQueue} {l r : NanEyeFrameDict}
    (hs : (q.findAndRemoveBestPair).1 = (some l, some r)) :
    q.findAndRemoveBestPair = ((some l, some r), (q.findAndRemoveBestPair).2) := by
  rw [← hs]

lemma getLoop_nil (t : Option ℚ) (s : ℚ) : getLoop t s [] = .stillWaiting t := rfl

lemma getLoop_cons_found (t : Option ℚ) (s : ℚ) (insp : Inspection)
    (rest : List Inspection) (l r : NanEyeFrameDict) (q' : StereoFrameQueue)
    (h : insp.state.findAndRemoveBestPair = ((some l, some r), q')) :
    getLoop t s (insp :: rest) = .delivered l r q' := by
  simp only [getLoop, h]

lemma getLoop_cons_notfound_none (s : ℚ) (insp : Inspection)
    (rest : List Inspection)
    (h : (insp.state.findAndRemoveBestPair).1 = (none, none)) :
    getLoop none s (insp :: rest) = getLoop none s rest := by
  simp only [getLoop, h]

lemma getLoop_cons_notfound_some (T : ℚ) (s : ℚ) (insp : Inspection)
    (rest : List Inspection)
    (h : (insp.state.findAndRemoveBestPair).1 = (none, none)) :
    getLoop (some T) s (insp :: rest) =
      if T - (insp.now - s) ≤ 0 then .emptyRaised
      else getLoop (some (T - (insp.now - s))) s rest := by
  simp only [getLoop, h]

/-- With `timeout = None` the loop can never raise `queue.Empty`. -/
lemma getLoop_none_ne_empty (trace : List Inspection) :
    ∀ s : ℚ, getLoop none s trace ≠ .emptyRaised := by
  induction trace with
  | nil => intro s h; rw [getLoop_nil] at h; simp at h
  | cons insp rest ih =>
    intro s h
    rcases findAndRemoveBestPair_shape insp.state with hs | ⟨l, r, hs⟩
    · rw [getLoop_cons_notfound_none s insp rest hs] at h
      exact ih s h
    · rw [getLoop_cons_found none s insp rest l r _ (pair_of_fst hs)] at h
      simp at h

/-- With `timeout = None` and no deliverable pair at any wake, the loop is
still blocked after any number of cycles. -/
lemma getLoop_none_stillWaiting (trace : List Inspection)
    (h : ∀ insp ∈ trace, (insp.state.findAndRemoveBestPair).1 = (none, none)) :
    ∀ s : ℚ, getLoop none s trace = .stillWaiting none := by
  induction trace with
  | nil => intro s; rfl
  | cons insp rest ih =>
    intro s
    rw [getLoop_cons_notfound_none s insp rest (h insp (List.mem_cons_self _ _))]
    exact ih (fun i hi => h i (List.mem_cons_of_mem _ hi)) s

/-- The re-armed budget only shrinks, so once a wake at or past
`start + T` happens with nothing deliverable, the loop has raised. -/
lemma getLoop_expires_aux (start : ℚ) (trace : List Inspection) :
    ∀ T T' : ℚ, T' ≤ T →
      (∀ insp ∈ trace, (insp.state.findAndRemoveBestPair).1 = (none, none)) →
      (∀ insp ∈ trace, start ≤ insp.now) →
      (∃ insp ∈ trace, start + T ≤ insp.now) →
      getLoop (some T') start trace = .emptyRaised := by
  induction trace with
  | nil => intro T T' _ _ _ hex; simp at hex
  | cons insp rest ih =>
    intro T T' hT hnp hge hex
    rw [getLoop_cons_notfound_some T' start insp rest (hnp insp (List.mem_cons_self _ _))]
    by_cases hrem : T' - (insp.now - start) ≤ 0
    · rw [if_pos hrem]
    · rw [if_neg hrem]
      push_neg at hrem
      rcases hex with ⟨j, hj, hjt⟩
      rcases List.mem_cons.mp hj with hj | hj
      · exfalso
        rw [hj] at hjt
        linarith
      · exact ih T (T' - (insp.now - start))
          (by have := hge insp (List.mem_cons_self _ _); linarith)
          (fun i hi => hnp i (List.mem_cons_of_mem _ hi))
          (fun i hi => hge i (List.mem_cons_of_mem _ hi))
          ⟨j, hj, hjt⟩

/-- Once the loop has raised on a prefix of the wake cycles, later cycles
are never consumed: `queue.Empty` is raised no later than that prefix. -/
lemma getLoop_empty_append (pre post : List Inspection) :
    ∀ (t : Option ℚ) (s : ℚ), getLoop t s pre = .emptyRaised →
      getLoop t s (pre ++ post) = .emptyRaised := by
  induction pre with
  | nil => intro t s h; rw [getLoop_nil] at h; simp at h
  | cons insp rest ih =>
    intro t s h
    rcases findAndRemoveBestPair_shape insp.state with hs | ⟨l, r, hs⟩
    · rcases t with _ | T
      · rw [getLoop_cons_notfound_none s insp rest hs] at h
        rw [List.cons_append, getLoop_cons_notfound_none s insp (rest ++ post) hs]
        exact ih none s h
      · rw [getLoop_cons_notfound_some T s insp rest hs] at h
        rw [List.cons_append, getLoop_cons_notfound_some T s insp (rest ++ post) hs]
        by_cases hrem : T - (insp.now - s) ≤ 0
        · rw [if_pos hrem]
        · rw [if_neg hrem] at h ⊢
          exact ih _ s h
    · rw [getLoop_cons_found t s insp rest l r _ (pair_of_fst hs)] at h
      simp at h

/-! ## Lemmas about the matcher including the tolerance gate -/

/-- Characterization of a successful `_find_and_remove_best_pair` call:
the scan found exactly this pair, it is within tolerance, and the state
afterwards has one occurrence of each frame erased. -/
lemma findAndRemove_success (q q' : StereoFrameQueue) (l r : NanEyeFrameDict)
    (h : q.findAndRemoveBestPair = ((some l, some r), q')) :
    findBest q.left_frames q.right_frames = some (|l.timestamp - r.timestamp|, l, r) ∧
    |l.timestamp - r.timestamp| ≤ q.timestamp_tolerance_us ∧
    q' = { q with left_frames := q.left_frames.erase l,
                  right_frames := q.right_frames.erase r } := by
  unfold StereoFrameQueue.findAndRemoveBestPair at h
  split at h
  next m bl br heq =>
    split at h
    next ht =>
      simp only [Prod.mk.injEq, Option.some.injEq] at h
      obtain ⟨⟨hbl, hbr⟩, hq'⟩ := h
      subst hbl
      subst hbr
      have hm := (findBest_min _ _ _ _ _ heq).2.2.1
      rw [hm] at heq ht
      exact ⟨heq, ht, hq'.symm⟩
    next ht => simp at h
  next heq => simp at h

/-- When every cross-channel combination is out of tolerance, the matcher
reports none available and leaves the state unchanged. -/
lemma findAndRemove_none_of_far (q : StereoFrameQueue)
    (h : ∀ l ∈ q.left_frames, ∀ r ∈ q.right_frames,
      q.timestamp_tolerance_us < |l.timestamp - r.timestamp|) :
    q.findAndRemoveBestPair = ((none, none), q) := by
  unfold StereoFrameQueue.findAndRemoveBestPair
  split
  next m bl br heq =>
    obtain ⟨hbl, hbr, hm, _⟩ := findBest_min _ _ _ _ _ heq
    rw [if_neg (by rw [hm]; exact not_le.mpr (h bl hbl br hbr))]
  next heq => rfl

/-- Every call either reports none available and leaves the state alone,
or succeeds and erases the chosen frames. -/
lemma findAndRemove_total (q : StereoFrameQueue) :
    q.findAndRemoveBestPair = ((none, none), q) ∨
    ∃ l r, q.findAndRemoveBestPair =
      ((some l, some r), { q with left_frames := q.left_frames.erase l,
                                  right_frames := q.right_frames.erase r }) := by
  unfold StereoFrameQueue.findAndRemoveBestPair
  split
  next m bl br heq =>
    split
    next => right; exact ⟨bl, br, rfl⟩
    next => left; rfl
  next heq => left; rfl

/-- Membership after a bounded append comes from the old buffer or is the
new element. -/
lemma mem_dequeAppend (cap : Nat) (xs : List NanEyeFrameDict)
    (x y : NanEyeFrameDict) (h : y ∈ dequeAppend cap xs x) :
    y ∈ xs ∨ y = x := by
  have h1 : y ∈ xs ++ [x] := List.mem_of_mem_drop h
  rcases List.mem_append.mp h1 with h2 | h2
  · exact Or.inl h2
  · exact Or.inr (List.mem_singleton.mp h2)

/-! ## Lemmas about the single-channel model -/

lemma submitAll_eq (subs : List NanEyeFrameDict) :
    ∀ (cap : Nat) (b : List NanEyeFrameDict),
      SingleChannelQueue.submitAll ⟨cap, b⟩ subs =
        ⟨cap, subs.foldl (dequeAppend cap) b⟩ := by
  induction subs with
  | nil => intro cap b; rfl
  | cons s rest ih =>
    intro cap b
    show SingleChannelQueue.submitAll (SingleChannelQueue.submit ⟨cap, b⟩ s) rest = _
    have hs : SingleChannelQueue.submit ⟨cap, b⟩ s = ⟨cap, dequeAppend cap b s⟩ := rfl
    rw [hs, ih cap (dequeAppend cap b s), List.foldl_cons]

lemma drain_spec (cap : Nat) : ∀ (n : Nat) (b : List NanEyeFrameDict),
    SingleChannelQueue.drain ⟨cap, b⟩ n =
      (b.take n).map some ++ List.replicate (n - b.length) none := by
  intro n
  induction n with
  | zero => intro b; simp [SingleChannelQueue.drain]
  | succ n ih =>
    intro b
    cases b with
    | nil =>
      show (none : Option NanEyeFrameDict) :: SingleChannelQueue.drain ⟨cap, []⟩ n = _
      rw [ih []]
      simp [List.replicate_succ]
    | cons f rest =>
      show some f :: SingleChannelQueue.drain ⟨cap, rest⟩ n = _
      rw [ih rest]
      simp [List.replicate, Nat.succ_sub_succ]

/-! ## Claim theorems -/

/-- C1: on a successful match, the returned pair minimizes the absolute
timestamp difference over all cross-channel combinations (left scanned
outer in insertion order, right inner), the running minimum is updated
only on strict less-than, so on ties the first pair in scan order is
retained: everything strictly earlier in scan order has a strictly
larger difference. -/
theorem best_pair_selection (q q' : StereoFrameQueue) (l r : NanEyeFrameDict)
    (h : q.findAndRemoveBestPair = ((some l, some r), q')) :
    (∀ l' ∈ q.left_frames, ∀ r' ∈ q.right_frames,
      |l.timestamp - r.timestamp| ≤ |l'.timestamp - r'.timestamp|) ∧
    (∃ pre post, scanPairs q.left_frames q.right_frames = pre ++ (l, r) :: post ∧
      ∀ p ∈ pre, |l.timestamp - r.timestamp| < tdiff p) := by
  obtain ⟨hfb, ht, hq'⟩ := findAndRemove_success q q' l r h
  obtain ⟨hm, pre, post, hsplit, hpre, hpost⟩ := findBest_spec _ _ _ _ _ hfb
  exact ⟨(findBest_min _ _ _ _ _ hfb).2.2.2, pre, post, hsplit, hpre⟩

/-- C1 witness: left timestamps 100, 200, 300 against right timestamp 150
with tolerance 20000 µs: the matcher returns the pair (100, 150) — the
first-encountered minimal-difference pair — and that pair's difference is
minimal over all combinations. -/
theorem best_pair_selection_witness :
    exampleStereoQueue.findAndRemoveBestPair =
      ((some (wFrame 100 0), some (wFrame 150 1)),
        { timestamp_tolerance_us := 20000, buffer_size := 3,
          left_frames := [wFrame 200 0, wFrame 300 0], right_frames := [] }) ∧
    (∀ l' ∈ exampleStereoQueue.left_frames, ∀ r' ∈ exampleStereoQueue.right_frames,
      |(wFrame 100 0).timestamp - (wFrame 150 1).timestamp| ≤
        |l'.timestamp - r'.timestamp|) :=
  ⟨by decide,
    (best_pair_selection exampleStereoQueue
      { timestamp_tolerance_us := 20000, buffer_size := 3,
        left_frames := [wFrame 200 0, wFrame 300 0], right_frames := [] }
      (wFrame 100 0) (wFrame 150 1) (by decide)).1⟩

/-- C2: a delivered pair is always within tolerance, and if every
cross-channel combination exceeds the tolerance the matcher reports none
available and leaves the buffers untouched. -/
theorem tolerance_exclusion (q : StereoFrameQueue) :
    (∀ q' l r, q.findAndRemoveBestPair = ((some l, some r), q') →
      |l.timestamp - r.timestamp| ≤ q.timestamp_tolerance_us) ∧
    ((∀ l ∈ q.left_frames, ∀ r ∈ q.right_frames,
        q.timestamp_tolerance_us < |l.timestamp - r.timestamp|) →
      q.findAndRemoveBestPair = ((none, none), q)) := by
  constructor
  · intro q' l r h
    exact (findAndRemove_success q q' l r h).2.1
  · exact findAndRemove_none_of_far q

/-- C2 witness: left timestamp 100 against right timestamp 100000 with
tolerance 20000 µs: every combination is out of tolerance, the matcher
reports none available, and a retrieval with a 0.1 s timeout raises the
empty condition rather than returning a false pair. -/
theorem tolerance_exclusion_witness :
    (∀ l ∈ farStereoQueue.left_frames, ∀ r ∈ farStereoQueue.right_frames,
      farStereoQueue.timestamp_tolerance_us < |l.timestamp - r.timestamp|) ∧
    farStereoQueue.findAndRemoveBestPair = ((none, none), farStereoQueue) ∧
    getLoop (some (1/10)) 0 [⟨1, farStereoQueue⟩] = .emptyRaised :=
  ⟨by decide, (tolerance_exclusion farStereoQueue).2 (by decide), by
    rw [getLoop_cons_notfound_some (1/10) 0 ⟨1, farStereoQueue⟩ [] (by decide)]
    rw [if_pos (by norm_num)]⟩

/-- C4: a successful retrieval has both chosen frames removed from their
buffers before being returned — one occurrence each is erased — and when
the buffers hold no duplicates a second retrieval can never return
either frame again. -/
theorem pair_removed_before_return (q q' : StereoFrameQueue)
    (l r : NanEyeFrameDict)
    (h : q.findAndRemoveBestPair = ((some l, some r), q')) :
    l ∈ q.left_frames ∧ r ∈ q.right_frames ∧
    q'.left_frames = q.left_frames.erase l ∧
    q'.right_frames = q.right_frames.erase r ∧
    q'.left_frames.count l + 1 = q.left_frames.count l ∧
    q'.right_frames.count r + 1 = q.right_frames.count r ∧
    (q.left_frames.Nodup → q.right_frames.Nodup →
      ∀ q'' l' r', q'.findAndRemoveBestPair = ((some l', some r'), q'') →
        l' ≠ l ∧ r' ≠ r) := by
  obtain ⟨hfb, ht, hq'⟩ := findAndRemove_success q q' l r h
  obtain ⟨hl, hr, _, _⟩ := findBest_min _ _ _ _ _ hfb
  have hql : q'.left_frames = q.left_frames.erase l := by rw [hq']
  have hqr : q'.right_frames = q.right_frames.erase r := by rw [hq']
  have hcl : 0 < q.left_frames.count l := List.count_pos_iff.mpr hl
  have hcr : 0 < q.right_frames.count r := List.count_pos_iff.mpr hr
  refine ⟨hl, hr, hql, hqr, ?_, ?_, ?_⟩
  · rw [hql, List.count_erase_self]
    omega
  · rw [hqr, List.count_erase_self]
    omega
  · intro hndl hndr q'' l' r' h2
    obtain ⟨hfb2, _, _⟩ := findAndRemove_success q' q'' l' r' h2
    obtain ⟨hl', hr', _, _⟩ := findBest_min _ _ _ _ _ hfb2
    rw [hql] at hl'
    rw [hqr] at hr'
    constructor
    · intro hll
      rw [hll] at hl'
      exact hndl.not_mem_erase hl'
    · intro hrr
      rw [hrr] at hr'
      exact hndr.not_mem_erase hr'

/-- C4 witness: on the concrete three-left/one-right state, the match
removes the chosen frames from the buffers before returning them. -/
theorem pair_removed_before_return_witness :
    exampleStereoQueue.findAndRemoveBestPair =
      ((some (wFrame 100 0), some (wFrame 150 1)),
        { timestamp_tolerance_us := 20000, buffer_size := 3,
          left_frames := [wFrame 200 0, wFrame 300 0], right_frames := [] }) ∧
    wFrame 100 0 ∈ exampleStereoQueue.left_frames ∧
    ({ timestamp_tolerance_us := 20000, buffer_size := 3,
       left_frames := [wFrame 200 0, wFrame 300 0],
       right_frames := [] } : StereoFrameQueue).left_frames =
      exampleStereoQueue.left_frames.erase (wFrame 100 0) :=
  ⟨by decide,
    (pair_removed_before_return exampleStereoQueue
      { timestamp_tolerance_us := 20000, buffer_size := 3,
        left_frames := [wFrame 200 0, wFrame 300 0], right_frames := [] }
      (wFrame 100 0) (wFrame 150 1) (by decide)).1,
    (pair_removed_before_return exampleStereoQueue
      { timestamp_tolerance_us := 20000, buffer_size := 3,
        left_frames := [wFrame 200 0, wFrame 300 0], right_frames := [] }
      (wFrame 100 0) (wFrame 150 1) (by decide)).2.2.1⟩

/-- C10: every frame in the left buffer has discriminator 0 and every
frame in the right buffer has discriminator 1: construction establishes
the invariant, `put` (the only inserting operation) preserves it, the
matcher preserves it, and any delivered pair has discriminator 0 on the
left and 1 on the right. -/
theorem channel_routing_invariant :
    (∀ tol bs q, StereoFrameQueue.init tol bs = .ok q → channelInvariant q) ∧
    (∀ q f, channelInvariant q → channelInvariant ((q.put f).state)) ∧
    (∀ q, channelInvariant q → channelInvariant (q.findAndRemoveBestPair).2) ∧
    (∀ q q' l r, channelInvariant q →
      q.findAndRemoveBestPair = ((some l, some r), q') →
      l.sensor_id = 0 ∧ r.sensor_id = 1) := by
  refine ⟨?_, ?_, ?_, ?_⟩
  · intro tol bs q hq
    unfold StereoFrameQueue.init at hq
    split at hq
    · exact Except.noConfusion hq
    · simp only [Except.ok.injEq] at hq
      rw [← hq]
      exact ⟨by intro f hf; simp at hf, by intro f hf; simp at hf⟩
  · intro q f ⟨hL, hR⟩
    by_cases h0 : f.sensor_id = 0
    · have hput : q.put f =
          ⟨{ q with left_frames := dequeAppend q.buffer_size q.left_frames f },
            true, false⟩ := by
        unfold StereoFrameQueue.put
        rw [if_pos h0]
      rw [hput]
      refine ⟨?_, hR⟩
      intro g hg
      rcases mem_dequeAppend _ _ _ _ hg with hg | hg
      · exact hL g hg
      · rw [hg]; exact h0
    · by_cases h1 : f.sensor_id = 1
      · have hput : q.put f =
            ⟨{ q with right_frames := dequeAppend q.buffer_size q.right_frames f },
              true, false⟩ := by
          unfold StereoFrameQueue.put
          rw [if_neg h0, if_pos h1]
        rw [hput]
        refine ⟨hL, ?_⟩
        intro g hg
        rcases mem_dequeAppend _ _ _ _ hg with hg | hg
        · exact hR g hg
        · rw [hg]; exact h1
      · have hput : q.put f = ⟨q, false, true⟩ := by
          unfold StereoFrameQueue.put
          rw [if_neg h0, if_neg h1]
        rw [hput]
        exact ⟨hL, hR⟩
  · intro q ⟨hL, hR⟩
    rcases findAndRemove_total q with h | ⟨l, r, h⟩
    · rw [h]; exact ⟨hL, hR⟩
    · rw [h]
      exact ⟨fun g hg => hL g (List.mem_of_mem_erase hg),
             fun g hg => hR g (List.mem_of_mem_erase hg)⟩
  · intro q q' l r ⟨hL, hR⟩ h
    obtain ⟨hfb, _, _⟩ := findAndRemove_success q q' l r h
    obtain ⟨hl, hr, _, _⟩ := findBest_min _ _ _ _ _ hfb
    exact ⟨hL l hl, hR r hr⟩

/-- C10 witness: the concrete state satisfies the invariant and its
delivered pair carries discriminator 0 on the left and 1 on the right. -/
theorem channel_routing_invariant_witness :
    channelInvariant exampleStereoQueue ∧
    (wFrame 100 0).sensor_id = 0 ∧ (wFrame 150 1).sensor_id = 1 :=
  ⟨⟨by decide, by decide⟩,
    channel_routing_invariant.2.2.2 exampleStereoQueue
      { timestamp_tolerance_us := 20000, buffer_size := 3,
        left_frames := [wFrame 200 0, wFrame 300 0], right_frames := [] }
      (wFrame 100 0) (wFrame 150 1) ⟨by decide, by decide⟩ (by decide)⟩

/-- C3: for every sequence of submissions on one channel the buffer never
exceeds the configured capacity; a submission at capacity evicts exactly
the single oldest element before appending, a submission below capacity
appends without reordering survivors, `put` realizes this on the routed
channel buffer, and folding a whole submission sequence retains exactly
the most recent `capacity` submissions. -/
theorem capacity_invariant (cap : Nat) (hcap : 1 ≤ cap) :
    (∀ (xs : List NanEyeFrameDict) (x : NanEyeFrameDict),
      (dequeAppend cap xs x).length ≤ max xs.length cap) ∧
    (∀ (xs : List NanEyeFrameDict) (x : NanEyeFrameDict),
      xs.length ≤ cap → (dequeAppend cap xs x).length ≤ cap) ∧
    (∀ (xs : List NanEyeFrameDict) (x : NanEyeFrameDict),
      xs.length = cap → dequeAppend cap xs x = xs.tail ++ [x]) ∧
    (∀ (xs : List NanEyeFrameDict) (x : NanEyeFrameDict),
      xs.length < cap → dequeAppend cap xs x = xs ++ [x]) ∧
    (∀ (q : StereoFrameQueue) (f : NanEyeFrameDict), f.sensor_id = 0 →
      q.buffer_size = cap →
      ((q.put f).state).left_frames = dequeAppend cap q.left_frames f) ∧
    (∀ subs : List NanEyeFrameDict,
      subs.foldl (dequeAppend cap) [] = subs.drop (subs.length - cap)) := by
  refine ⟨?_, ?_, ?_, ?_, ?_, ?_⟩
  · intro xs x
    rcases dequeAppend_length_le cap xs x with h | h
    · exact h.trans (le_max_right _ _)
    · rw [h]
      simp only [dequeAppend] at h
      have := congrArg List.length h
      rw [List.length_drop] at this
      simp only [List.length_append, List.length_cons, List.length_nil] at this ⊢
      omega
  · exact fun xs x h => dequeAppend_length_le_of_le cap xs x h
  · exact fun xs x h => dequeAppend_at_cap cap xs x hcap h
  · exact fun xs x h => dequeAppend_of_lt cap xs x h
  · intro q f h0 hbs
    have hput : q.put f =
        ⟨{ q with left_frames := dequeAppend q.buffer_size q.left_frames f },
          true, false⟩ := by
      unfold StereoFrameQueue.put
      rw [if_pos h0]
    rw [hput, hbs]
  · intro subs
    have h := foldl_dequeAppend cap subs [] (by simp)
    simpa using h

/-- C3 witness: with capacity 2, submitting three frames retains exactly
the most recent two, in insertion order. -/
theorem capacity_invariant_witness :
    1 ≤ 2 ∧
    List.foldl (dequeAppend 2) [] [wFrame 1 0, wFrame 2 0, wFrame 3 0] =
      [wFrame 2 0, wFrame 3 0] := by
  refine ⟨by decide, ?_⟩
  rw [(capacity_invariant 2 (by decide)).2.2.2.2.2 [wFrame 1 0, wFrame 2 0, wFrame 3 0]]
  decide

/-- C7: submitting a frame whose discriminator is neither 0 nor 1 never
raises: the frame is discarded with a diagnostic, both buffers are left
unchanged, no waiting consumer is woken, and every later call behaves
exactly as if the frame had never been submitted. -/
theorem put_unroutable_discriminator (q : StereoFrameQueue)
    (f : NanEyeFrameDict) (h0 : f.sensor_id ≠ 0) (h1 : f.sensor_id ≠ 1) :
    q.put f = ⟨q, false, true⟩ ∧
    ((q.put f).state).left_frames = q.left_frames ∧
    ((q.put f).state).right_frames = q.right_frames ∧
    (q.put f).eventSet = false ∧ (q.put f).warned = true ∧
    (∀ g, ((q.put f).state).put g = q.put g) ∧
    ((q.put f).state).findAndRemoveBestPair = q.findAndRemoveBestPair := by
  have hput : q.put f = ⟨q, false, true⟩ := by
    unfold StereoFrameQueue.put
    rw [if_neg h0, if_neg h1]
  exact ⟨hput, by rw [hput], by rw [hput], by rw [hput], by rw [hput],
    fun g => by rw [hput], by rw [hput]⟩

/-- C7 witness: a frame with discriminator 2 submitted to the empty queue
is discarded without waking a consumer, leaving the state unchanged. -/
theorem put_unroutable_discriminator_witness :
    (wFrame 5 2).sensor_id ≠ 0 ∧ (wFrame 5 2).sensor_id ≠ 1 ∧
    ({ timestamp_tolerance_us := 20000, buffer_size := 3, left_frames := [],
       right_frames := [] } : StereoFrameQueue).put (wFrame 5 2) =
      ⟨{ timestamp_tolerance_us := 20000, buffer_size := 3, left_frames := [],
         right_frames := [] }, false, true⟩ :=
  ⟨by decide, by decide,
    (put_unroutable_discriminator _ (wFrame 5 2) (by decide) (by decide)).1⟩

/-- C9: construction succeeds exactly when the configured capacity is at
least 1 and fails fast (`ValueError`) otherwise; the defaults are a
tolerance of 20000 µs and a capacity of 3. -/
theorem construction_validation (tol bufSize : Int) :
    ((∃ q, StereoFrameQueue.init tol bufSize = .ok q) ↔ 1 ≤ bufSize) ∧
    (bufSize < 1 →
      StereoFrameQueue.init tol bufSize = .error "buffer_size must be at least 1") ∧
    defaultToleranceUs = 20000 ∧ defaultBufferSize = 3 ∧
    StereoFrameQueue.init defaultToleranceUs defaultBufferSize =
      .ok { timestamp_tolerance_us := 20000, buffer_size := 3,
            left_frames := [], right_frames := [] } := by
  refine ⟨⟨?_, ?_⟩, ?_, rfl, rfl, rfl⟩
  · rintro ⟨q, hq⟩
    by_contra hlt
    push_neg at hlt
    unfold StereoFrameQueue.init at hq
    rw [if_pos hlt] at hq
    exact Except.noConfusion hq
  · intro h
    refine ⟨{ timestamp_tolerance_us := tol, buffer_size := bufSize.toNat,
              left_frames := [], right_frames := [] }, ?_⟩
    unfold StereoFrameQueue.init
    rw [if_neg (by omega)]
  · intro h
    unfold StereoFrameQueue.init
    rw [if_pos h]

/-- C9 witness: the default configuration constructs successfully and a
zero capacity fails fast. -/
theorem construction_validation_witness :
    (∃ q, StereoFrameQueue.init 20000 3 = .ok q) ∧
    StereoFrameQueue.init 20000 0 = .error "buffer_size must be at least 1" :=
  ⟨(construction_validation 20000 3).1.mpr (by decide),
    (construction_validation 20000 0).2.1 (by decide)⟩

/-- C5: with a finite timeout and nothing deliverable by the first wake at
or past expiry, the loop signals the distinct `queue.Empty` condition,
which is not a delivered pair; with timeout `None` the loop never signals
that condition and is still blocked after any number of fruitless
cycles. -/
theorem timeout_signalling (T start : ℚ) (trace : List Inspection)
    (hnp : ∀ insp ∈ trace, (insp.state.findAndRemoveBestPair).1 = (none, none))
    (hge : ∀ insp ∈ trace, start ≤ insp.now)
    (hex : ∃ insp ∈ trace, start + T ≤ insp.now) :
    getLoop (some T) start trace = .emptyRaised ∧
    (∀ l r q', GetOutcome.emptyRaised ≠ GetOutcome.delivered l r q') ∧
    getLoop none start trace = .stillWaiting none ∧
    (∀ (trace' : List Inspection) (s : ℚ), getLoop none s trace' ≠ .emptyRaised) :=
  ⟨getLoop_expires_aux start trace T T le_rfl hnp hge hex,
    fun _ _ _ h => GetOutcome.noConfusion h,
    getLoop_none_stillWaiting trace hnp start,
    fun trace' s => getLoop_none_ne_empty trace' s⟩

/-- C5 witness: a 2-second timeout starting at 0 with an empty queue and a
wake at 5 raises the empty condition, while a `None` timeout on the same
run is still waiting. -/
theorem timeout_signalling_witness :
    getLoop (some 2) 0 [idleInspection 5] = .emptyRaised ∧
    getLoop none 0 [idleInspection 5] = .stillWaiting none := by
  have h := timeout_signalling 2 0 [idleInspection 5]
    (by intro i hi; rw [List.mem_singleton] at hi; subst hi; decide)
    (by intro i hi; rw [List.mem_singleton] at hi; subst hi; norm_num [idleInspection])
    ⟨idleInspection 5, List.mem_singleton_self _, by norm_num [idleInspection]⟩
  exact ⟨h.1, h.2.2.1⟩

/-- C6: the re-armed timeout budget staying below the original ensures the
call is already raising by the first wake at or past `start + T`: the
hypotheses constrain only the cycles up to that wake, and the raise
consumes no later cycle, so the call never blocks past T plus the wake
slack, no matter how many wake/inspect cycles preceded expiry. -/
theorem timeout_budget_bound (T start : ℚ) (trace : List Inspection) (i : Nat)
    (hi : i < trace.length)
    (hnp : ∀ insp ∈ trace.take (i + 1),
      (insp.state.findAndRemoveBestPair).1 = (none, none))
    (hge : ∀ insp ∈ trace.take (i + 1), start ≤ insp.now)
    (hexp : start + T ≤ (trace.get ⟨i, hi⟩).now) :
    getLoop (some T) start (trace.take (i + 1)) = .emptyRaised ∧
    getLoop (some T) start trace = .emptyRaised := by
  have hilen : i < (trace.take (i + 1)).length := by
    rw [List.length_take]
    omega
  have hget : (trace.take (i + 1)).get ⟨i, hilen⟩ = trace.get ⟨i, hi⟩ := by
    simp [List.get_eq_getElem, List.getElem_take]
  have hmem : trace.get ⟨i, hi⟩ ∈ trace.take (i + 1) := by
    rw [← hget]
    exact List.get_mem (trace.take (i + 1)) i hilen
  have h1 := getLoop_expires_aux start (trace.take (i + 1)) T T le_rfl hnp hge
    ⟨trace.get ⟨i, hi⟩, hmem, hexp⟩
  refine ⟨h1, ?_⟩
  have h2 := getLoop_empty_append (trace.take (i + 1)) (trace.drop (i + 1))
    (some T) start h1
  rwa [List.take_append_drop] at h2

/-- C6 witness: a 3-second timeout starting at 0 whose only wake is at 9
with an empty queue has raised by that wake. -/
theorem timeout_budget_bound_witness :
    getLoop (some 3) 0 ([idleInspection 9].take 1) = .emptyRaised ∧
    getLoop (some 3) 0 [idleInspection 9] = .emptyRaised :=
  timeout_budget_bound 3 0 [idleInspection 9] 0 (by decide)
    (by intro i hi; rw [List.take_one, List.head?_cons, Option.toList_some,
          List.mem_singleton] at hi; subst hi; decide)
    (by intro i hi; rw [List.take_one, List.head?_cons, Option.toList_some,
          List.mem_singleton] at hi; subst hi; norm_num [idleInspection])
    (by norm_num [idleInspection])

/-- C8 (modelled from the spec): single-channel mode has default capacity
1, constructs for any capacity at least 1, and is a plain FIFO: after N
submissions into a fresh queue, N consecutive retrievals return exactly
the retained most recent `capacity` submissions in submission order and
report nothing afterwards. -/
theorem single_channel_fifo (cap : Int) (hcap : 1 ≤ cap)
    (subs : List NanEyeFrameDict) :
    defaultSingleCapacity = 1 ∧
    ∃ q₀, SingleChannelQueue.init cap = .ok q₀ ∧
      (q₀.submitAll subs).drain subs.length =
        ((subs.drop (subs.length - cap.toNat)).map some) ++
          List.replicate (subs.length - cap.toNat) none := by
  refine ⟨rfl, ⟨cap.toNat, []⟩, ?_, ?_⟩
  · unfold SingleChannelQueue.init
    rw [if_neg (by omega)]
  · rw [submitAll_eq, foldl_dequeAppend cap.toNat subs [] (by simp), drain_spec]
    rw [List.nil_append, List.take_of_length_le (by rw [List.length_drop]; omega)]
    congr 1
    rw [List.length_drop]
    congr 1
    omega

/-- C8 witness: capacity 1, two submissions then two retrievals: the
first retrieval returns the second (retained) submission, the second
reports nothing. -/
theorem single_channel_fifo_witness :
    (1 : Int) ≤ 1 ∧
    (defaultSingleCapacity = 1 ∧
      ∃ q₀, SingleChannelQueue.init 1 = .ok q₀ ∧
        (q₀.submitAll [wFrame 1 0, wFrame 2 0]).drain
            ([wFrame 1 0, wFrame 2 0] : List NanEyeFrameDict).length =
          ((([wFrame 1 0, wFrame 2 0] : List NanEyeFrameDict).drop
              (([wFrame 1 0, wFrame 2 0] : List NanEyeFrameDict).length -
                (1 : Int).toNat)).map some) ++
            List.replicate
              (([wFrame 1 0, wFrame 2 0] : List NanEyeFrameDict).length -
                (1 : Int).toNat) none) :=
  ⟨by decide, single_channel_fifo 1 (by decide) [wFrame 1 0, wFrame 2 0]⟩
